import Mathlib

/-
Verification of the tsc-ext repository: a shallow embedding of
src/delegating_host.ts and src/index.ts, followed by theorems settling the
behavioural claims about the host-delegation layer and the pipeline
orchestrator.

Modelling conventions:
  * A possibly-undefined JavaScript value of type T is an Option T.
  * A diagnostics array is a list of possibly-undefined diagnostics, because
    the orchestrator builds arrays such as the singleton holding the
    possibly-undefined config error.
  * Callbacks that are only forwarded, never invoked, are values of an
    abstract type parameter.
  * The external compilation engine (the typescript package) is abstract:
    its per-program outputs are fields of EngineBehavior, and the fact that
    building a Program drives the hosts source retrieval on each root input
    is modelled from the spec (section 2 data flow).
-/

namespace TscExt

/-- Severity tags of the engine diagnostics (ts.DiagnosticCategory). -/
inductive DiagnosticCategory where
  | Warning
  | Error
  | Message
  | Suggestion
deriving DecidableEq, Repr

/-- A diagnostic: severity-tagged message (file anchoring is irrelevant to the
claims and omitted from the equality-relevant payload). -/
structure Diagnostic where
  category : DiagnosticCategory
  messageText : String
deriving DecidableEq, Repr

/-- A diagnostics array as the orchestrator builds them: elements may be
undefined (the orchestrator passes a singleton array holding the
possibly-undefined config error). -/
abbrev DiagList := List (Option Diagnostic)

/-- A parsed compilation unit (ts.SourceFile), reduced to the fields the code
distinguishes: name, text, language version, parent-node wiring flag. -/
structure SourceFile where
  fileName : String
  text : String
  languageVersion : Nat
  setParentNodes : Bool
deriving DecidableEq, Repr

/-- ts.createSourceFile: builds a fresh parse of the given text. -/
def createSourceFile (fileName text : String) (languageVersion : Nat)
    (setParentNodes : Bool) : SourceFile :=
  { fileName := fileName, text := text, languageVersion := languageVersion,
    setParentNodes := setParentNodes }

/-- Result of program.emit(sf). -/
structure EmitResult where
  diagnostics : DiagList
  emitSkipped : Bool

/-- The Program as the core consumes it: the unit list plus the engine-side
diagnostic and emission behaviors (external engine contract, spec section 6). -/
structure Program where
  sourceFiles : List SourceFile
  optionsDiagnostics : DiagList
  globalDiagnostics : DiagList
  preEmitDiagnosticsFor : SourceFile → DiagList
  preEmitDiagnosticsAll : DiagList
  emit : SourceFile → EmitResult

/-- Return value of an extensions preProcess hook. -/
structure PreProcessResult where
  content : String
  diagnostics : DiagList

/-- The configuration bag of an extension (recognized key: genDir). -/
structure ExtensionOptions where
  genDir : Option String
deriving DecidableEq, Repr

/-- An extension: up to four independently-optional hooks plus identity and
configuration. The codegen hook is modelled by the list of write-callback
invocations it performs (relative path, content). The Program argument of
preProcess is optional because the host program field is unassigned until the
orchestrator wires it. -/
structure Extension where
  name : String
  options : ExtensionOptions
  preProcess : Option (Option Program → Option SourceFile → PreProcessResult)
  postProcess : Option (String → String → String)
  codegen : Option (List (String × String))
  check : Option Unit

/-- A resolved module (ts.ResolvedModule), reduced to the resolved path. -/
structure ResolvedModule where
  resolvedFileName : String
deriving DecidableEq, Repr

/-- Engine compiler options, reduced to the field the core reads. -/
structure CompilerOptions where
  outDir : Option String
deriving DecidableEq, Repr

/-- ts.CompilerHost as the DelegatingHost forwards it.  The type parameters
stand for values the core never inspects: onError callbacks, the result of a
write, the result of a trace, and cancellation tokens. -/
structure CompilerHost (ε ω τ γ : Type) where
  getSourceFile : String → Nat → Option ε → Option SourceFile
  getCancellationToken : Unit → γ
  getDefaultLibFileName : CompilerOptions → String
  getDefaultLibLocation : Unit → String
  writeFile : String → String → Bool → Option ε → ω
  getCurrentDirectory : Unit → String
  getCanonicalFileName : String → String
  useCaseSensitiveFileNames : Unit → Bool
  getNewLine : Unit → String
  resolveModuleNames : List String → String → List ResolvedModule
  fileExists : String → Bool
  readFile : String → String
  trace : String → τ
  directoryExists : String → Bool

/-- src/delegating_host.ts, class DelegatingHost: every operation forwards
unconditionally to the wrapped base host (writeFile is the direct reference,
as in the source). -/
def DelegatingHost {ε ω τ γ : Type} (delegate : CompilerHost ε ω τ γ) :
    CompilerHost ε ω τ γ :=
  { getSourceFile := fun fileName languageVersion onError =>
      delegate.getSourceFile fileName languageVersion onError,
    getCancellationToken := fun u => delegate.getCancellationToken u,
    getDefaultLibFileName := fun options => delegate.getDefaultLibFileName options,
    getDefaultLibLocation := fun u => delegate.getDefaultLibLocation u,
    writeFile := delegate.writeFile,
    getCurrentDirectory := fun u => delegate.getCurrentDirectory u,
    getCanonicalFileName := fun fileName => delegate.getCanonicalFileName fileName,
    useCaseSensitiveFileNames := fun u => delegate.useCaseSensitiveFileNames u,
    getNewLine := fun u => delegate.getNewLine u,
    resolveModuleNames := fun moduleNames containingFile =>
      delegate.resolveModuleNames moduleNames containingFile,
    fileExists := fun fileName => delegate.fileExists fileName,
    readFile := fun fileName => delegate.readFile fileName,
    trace := fun s => delegate.trace s,
    directoryExists := fun directoryName => delegate.directoryExists directoryName }

/-- src/index.ts, function check: abort when the array is non-null, has
non-zero length, and its first element is truthy (non-null). -/
def checkAborts (diagnostics : Option DiagList) : Bool :=
  match diagnostics with
  | none => false
  | some ds => !ds.isEmpty && (ds.headD none).isSome

/-- Mutable state of one ExtCompilerHost instance: the diagnostics
accumulator, the deferred Program slot, and the reverse module map. -/
structure HostState where
  diagnostics : DiagList
  program : Option Program
  reverseMap : String → Option String

/-- Trace events recording the temporal claims: each preProcess hook call
(with the name of the extension and whether the Program slot was assigned at
call time), and the one Program assignment in main. -/
inductive Event where
  | preProcessCall (extName : String) (programAssigned : Bool)
  | assignProgram
deriving DecidableEq, BEq, Repr

/-- Total application of a (present) preProcess hook. -/
def applyPre (e : Extension) (program : Option Program)
    (sourceFile : Option SourceFile) : PreProcessResult :=
  match e.preProcess with
  | some f => f program sourceFile
  | none => { content := "", diagnostics := [] }

/-- Total application of a (present) postProcess hook. -/
def applyPost (e : Extension) (fileName content : String) : String :=
  match e.postProcess with
  | some f => f fileName content
  | none => content

/-- The regex test for declaration files in getSourceFile. -/
def isDefinitions (fileName : String) : Bool :=
  fileName.endsWith ".d.ts"

/-- One iteration of the preProcess forEach in getSourceFile: the hook result
content replaces the running content, its diagnostics are appended to the
accumulator, and a trace event records the call. -/
def preStep (program : Option Program) (sourceFile : Option SourceFile)
    (acc : String × DiagList × List Event) (e : Extension) :
    String × DiagList × List Event :=
  ((applyPre e program sourceFile).content,
   acc.2.1 ++ (applyPre e program sourceFile).diagnostics,
   acc.2.2 ++ [Event.preProcessCall e.name program.isSome])

/-- src/index.ts, ExtCompilerHost.getSourceFile.  Returns the produced unit,
the updated host state, and the trace of hook calls. -/
def extGetSourceFile {ε ω τ γ : Type} (delegate : CompilerHost ε ω τ γ)
    (extensions : List Extension) (st : HostState) (fileName : String)
    (languageVersion : Nat) (onError : Option ε) :
    Option SourceFile × HostState × List Event :=
  let sourceFile := delegate.getSourceFile fileName languageVersion onError
  if isDefinitions fileName then
    (sourceFile, st, [])
  else
    let content := delegate.readFile fileName
    let r := (extensions.filter fun e => e.preProcess.isSome).foldl
      (preStep st.program sourceFile) (content, st.diagnostics, [])
    (some (createSourceFile fileName r.1 languageVersion true),
     { st with diagnostics := r.2.1 }, r.2.2)

/-- The argument tuple the ExtCompilerHost passes to the base host write. -/
structure WriteCall (ε : Type) where
  fileName : String
  content : String
  writeByteOrderMark : Bool
  onError : Option ε
deriving DecidableEq

/-- src/index.ts, ExtCompilerHost.writeFile: the content is folded through
the enabled postProcess hooks, then the delegate write receives the final
content together with the original path, byte-order-mark flag and callback. -/
def extWriteCall {ε : Type} (extensions : List Extension)
    (fileName content : String) (writeByteOrderMark : Bool)
    (onError : Option ε) : WriteCall ε :=
  { fileName := fileName,
    content := (extensions.filter fun e => e.postProcess.isSome).foldl
      (fun c e => applyPost e fileName c) content,
    writeByteOrderMark := writeByteOrderMark,
    onError := onError }

/-- The delegate invocation performed by ExtCompilerHost.writeFile. -/
def extWriteFile {ε ω τ γ : Type} (delegate : CompilerHost ε ω τ γ)
    (extensions : List Extension) (fileName content : String)
    (writeByteOrderMark : Bool) (onError : Option ε) : ω :=
  let w := extWriteCall extensions fileName content writeByteOrderMark onError
  delegate.writeFile w.fileName w.content w.writeByteOrderMark w.onError

/-- One iteration of the forEach in ExtCompilerHost.resolveModuleNames: an
unresolved specifier contributes nothing; a resolved one is appended to the
result and overwrites the reverse map entry for its resolved path.  The
parameter resolveModuleName abstracts ts.resolveModuleName closed over the
containing file, the options and the delegate. -/
def resolveStep (resolveModuleName : String → Option ResolvedModule)
    (acc : List ResolvedModule × (String → Option String)) (moduleName : String) :
    List ResolvedModule × (String → Option String) :=
  match resolveModuleName moduleName with
  | some resolvedModule =>
    (acc.1 ++ [resolvedModule],
     fun fileName =>
       if fileName = resolvedModule.resolvedFileName then some moduleName
       else acc.2 fileName)
  | none => acc

/-- src/index.ts, ExtCompilerHost.resolveModuleNames. -/
def resolveModuleNamesModel (resolveModuleName : String → Option ResolvedModule)
    (moduleNames : List String) (reverseMap : String → Option String) :
    List ResolvedModule × (String → Option String) :=
  moduleNames.foldl (resolveStep resolveModuleName) ([], reverseMap)

/-- Helper used to state the reverse-map characterization: the last specifier
that resolved to the path when one exists, the prior entry otherwise. -/
def lastResolvedOr (fallback : Option String) (hit : Option String) :
    Option String :=
  match hit with
  | some moduleName => some moduleName
  | none => fallback

/-- The postProcess chain as the specification words it: the content is
threaded left-to-right through the enabled extension list, each call consuming
the output of the previous call.  Stated from the spec wording, to be compared
with the source-derived fold in extWriteCall. -/
def specPostChain (fileName : String) : List Extension → String → String
  | [], content => content
  | e :: rest, content => specPostChain fileName rest (applyPost e fileName content)

/-- JavaScript truthiness of an optional string: undefined and the empty
string are falsy. -/
def jsTruthyString : Option String → Bool
  | some s => !(s == "")
  | none => false

/-- path.join on defined segments, without dot-segment normalization (the
claims never exercise it). -/
def pathJoin (a b : String) : String :=
  if a == "" then b else if b == "" then a else a ++ "/" ++ b

/-- The error raised by path.join when the output directory is undefined. -/
def pathJoinUndefinedError : String :=
  "TypeError: Path must be a string. Received undefined"

/-- The output directory computed inside the codegen write callback: the
genDir branch is taken only when genDir is truthy (a configured empty string
is falsy in JavaScript and falls through to the engine outDir). -/
def codegenOutDir (basePath : String) (genDir outDir : Option String) :
    Option String :=
  match genDir with
  | some g => if g == "" then outDir else some (pathJoin basePath g)
  | none => outDir

/-- The destination computed by the codegen write callback, or the path.join
error when the output directory is undefined. -/
def codegenDest (basePath : String) (genDir outDir : Option String)
    (filename : String) : Except String String :=
  match codegenOutDir basePath genDir outDir with
  | some o => Except.ok (pathJoin o filename)
  | none => Except.error pathJoinUndefinedError

/-- The write-callback invocations of one codegen hook, run in order; the
first failing path.join aborts the whole run. -/
def codegenRunCalls (basePath : String) (genDir outDir : Option String) :
    List (String × String) → Except String (List (String × String))
  | [] => Except.ok []
  | (filename, source) :: rest =>
    match codegenDest basePath genDir outDir filename with
    | Except.error message => Except.error message
    | Except.ok dest =>
      match codegenRunCalls basePath genDir outDir rest with
      | Except.error message => Except.error message
      | Except.ok writes => Except.ok ((dest, source) :: writes)

/-- The codegen phase of main: every codegen-capable extension runs in order,
each with the write callback of the orchestrator. -/
def codegenPhase (basePath : String) (outDir : Option String) :
    List Extension → Except String (List (String × String))
  | [] => Except.ok []
  | e :: rest =>
    match e.codegen with
    | none => codegenPhase basePath outDir rest
    | some calls =>
      match codegenRunCalls basePath e.options.genDir outDir calls with
      | Except.error message => Except.error message
      | Except.ok writes =>
        match codegenPhase basePath outDir rest with
        | Except.error message => Except.error message
        | Except.ok writes2 => Except.ok (writes ++ writes2)

/-- src/index.ts, isCompilationTarget: currently every unit, unconditionally. -/
def isCompilationTarget (_sf : SourceFile) : Bool :=
  true

/-- The external engine behaviors of one run (spec section 6 contract). -/
structure EngineBehavior where
  optionsDiagnostics : DiagList
  globalDiagnostics : DiagList
  preEmitDiagnosticsFor : SourceFile → DiagList
  preEmitDiagnosticsAll : DiagList
  emit : SourceFile → EmitResult

/-- One root input processed during Program construction: the engine retrieves
the unit through the host. -/
def createStep (delegate : CompilerHost Unit Unit Unit Unit)
    (extensions : List Extension)
    (acc : List SourceFile × HostState × List Event) (fileName : String) :
    List SourceFile × HostState × List Event :=
  let g := extGetSourceFile delegate extensions acc.2.1 fileName 0 none
  (acc.1 ++ g.1.toList, g.2.1, acc.2.2 ++ g.2.2)

/-- Modelled from the spec: ts.createProgram is external engine code; per the
spec data flow ("Host used by engine to build Program", section 2) the engine
builds the Program by invoking the hosts source retrieval on each root input,
and the remaining Program operations are the abstract engine contract of
section 6. -/
def createProgram (delegate : CompilerHost Unit Unit Unit Unit)
    (extensions : List Extension) (engine : EngineBehavior)
    (fileNames : List String) (st : HostState) :
    Program × HostState × List Event :=
  let r := fileNames.foldl (createStep delegate extensions) ([], st, [])
  ({ sourceFiles := r.1,
     optionsDiagnostics := engine.optionsDiagnostics,
     globalDiagnostics := engine.globalDiagnostics,
     preEmitDiagnosticsFor := engine.preEmitDiagnosticsFor,
     preEmitDiagnosticsAll := engine.preEmitDiagnosticsAll,
     emit := engine.emit },
   r.2.1, r.2.2)

/-- Outcomes of one run: an abort from check (with the pending diagnostics
printed), an error thrown to the process boundary, or a completed run with
its return value. -/
inductive RunError where
  | aborted (pending : DiagList)
  | thrown (message : String)
deriving DecidableEq, Repr

/-- The inputs of one main run, with the external collaborators (config
reader, option parser, extension loader, base host, engine) abstracted into
their outputs. -/
structure MainInputs where
  basePath : String
  configError : Option Diagnostic
  parsedErrors : DiagList
  parsedOptions : CompilerOptions
  fileNames : List String
  extensions : List Extension
  delegate : CompilerHost Unit Unit Unit Unit
  engine : EngineBehavior

/-- src/index.ts, the emission loop of main.  The source destructures the
emit result into a fresh local diagnostics binding that shadows the outer
accumulator, so its push appends the emission diagnostics to themselves and
the outer accumulator is never extended; only emitSkipped feeds the failed
flag. -/
def emitLoop (program : Program) : Bool :=
  (program.sourceFiles.filter isCompilationTarget).foldl
    (fun failed sf =>
      let r := program.emit sf
      let _selfAppend := r.diagnostics ++ r.diagnostics
      failed || r.emitSkipped)
    false

/-- src/index.ts, main after Program construction and assignment: the
diagnostic checks, the codegen phase, the static check hooks (no modelled
effect), the emission loop, and the final result. -/
def mainPhases (inp : MainInputs) (program : Program) (host : HostState) :
    Except RunError Nat :=
  if checkAborts (some program.optionsDiagnostics) then
    Except.error (RunError.aborted program.optionsDiagnostics)
  else
    match codegenPhase inp.basePath inp.parsedOptions.outDir inp.extensions with
    | Except.error message => Except.error (RunError.thrown message)
    | Except.ok _writes =>
      if checkAborts (some program.globalDiagnostics) then
        Except.error (RunError.aborted program.globalDiagnostics)
      else
        let diagnostics :=
          ((program.sourceFiles.filter isCompilationTarget).map
            program.preEmitDiagnosticsFor).flatten
        if checkAborts (some diagnostics) then
          Except.error (RunError.aborted diagnostics)
        else if checkAborts (some host.diagnostics) then
          Except.error (RunError.aborted host.diagnostics)
        else if checkAborts (some program.preEmitDiagnosticsAll) then
          Except.error (RunError.aborted program.preEmitDiagnosticsAll)
        else
          let failed := emitLoop program
          if checkAborts (some diagnostics) then
            Except.error (RunError.aborted diagnostics)
          else
            Except.ok (if failed then 1 else 0)

/-- src/index.ts, function main: config error check, parsed-options error
check, host construction, Program construction (which drives the hosts source
retrieval), the single Program assignment, then the remaining phases.  The
second component is the trace of hook calls and the assignment. -/
def mainModel (inp : MainInputs) : Except RunError Nat × List Event :=
  if checkAborts (some [inp.configError]) then
    (Except.error (RunError.aborted [inp.configError]), [])
  else if checkAborts (some inp.parsedErrors) then
    (Except.error (RunError.aborted inp.parsedErrors), [])
  else
    let hostStart : HostState :=
      { diagnostics := [], program := none, reverseMap := fun _ => none }
    let created :=
      createProgram inp.delegate inp.extensions inp.engine inp.fileNames hostStart
    let program := created.1
    let host : HostState := { created.2.1 with program := some program }
    (mainPhases inp program host, created.2.2 ++ [Event.assignProgram])

/-- True when some preProcess hook call appears in the trace before the
Program assignment. -/
def isPreProcessEvent : Event → Bool
  | Event.preProcessCall _ _ => true
  | Event.assignProgram => false

/-- Decides the negation of claim C3 on a trace: some preProcess hook call
occurs strictly before the first Program assignment. -/
def hookBeforeAssign (events : List Event) : Bool :=
  (events.takeWhile fun ev => !(ev == Event.assignProgram)).any isPreProcessEvent

/-! Concrete instances used by counterexamples and witnesses. -/

/-- A minimal base host. -/
def trivialHost : CompilerHost Unit Unit Unit Unit :=
  { getSourceFile := fun _ _ _ => none,
    getCancellationToken := fun _ => (),
    getDefaultLibFileName := fun _ => "lib.d.ts",
    getDefaultLibLocation := fun _ => "",
    writeFile := fun _ _ _ _ => (),
    getCurrentDirectory := fun _ => "",
    getCanonicalFileName := fun s => s,
    useCaseSensitiveFileNames := fun _ => true,
    getNewLine := fun _ => "\n",
    resolveModuleNames := fun _ _ => [],
    fileExists := fun _ => false,
    readFile := fun _ => "",
    trace := fun _ => (),
    directoryExists := fun _ => false }

/-- The freshly constructed host state of one run. -/
def hostState0 : HostState :=
  { diagnostics := [], program := none, reverseMap := fun _ => none }

/-- A base host whose source retrieval reports the unit as missing while its
raw read returns text: the two channels ExtCompilerHost.getSourceFile
consults disagree. -/
def missingFileHost : CompilerHost Unit Unit Unit Unit :=
  { trivialHost with
    getSourceFile := fun _ _ _ => none,
    readFile := fun _ => "x" }

/-- A fatal-severity diagnostic produced by emission. -/
def emitDiagnostic : Diagnostic :=
  { category := DiagnosticCategory.Error, messageText := "emit failed" }

/-- A non-fatal diagnostic. -/
def warningDiagnostic : Diagnostic :=
  { category := DiagnosticCategory.Warning, messageText := "w" }

/-- An extension providing no hooks at all. -/
def emptyExtension : Extension :=
  { name := "empty", options := { genDir := none }, preProcess := none,
    postProcess := none, codegen := none, check := none }

/-- Engine behavior with no diagnostics anywhere and an emission that
produces one fatal diagnostic without skipping. -/
def engineEmitDiag : EngineBehavior :=
  { optionsDiagnostics := [], globalDiagnostics := [],
    preEmitDiagnosticsFor := fun _ => [], preEmitDiagnosticsAll := [],
    emit := fun _ =>
      { diagnostics := [some emitDiagnostic], emitSkipped := false } }

/-- Engine behavior that skips emission while reporting no diagnostics. -/
def engineEmitSkip : EngineBehavior :=
  { engineEmitDiag with
    emit := fun _ => { diagnostics := [], emitSkipped := true } }

/-- A run with one root input and no extensions whose emission produces a
diagnostic. -/
def mainInputsEmitDiag : MainInputs :=
  { basePath := "", configError := none, parsedErrors := [],
    parsedOptions := { outDir := none }, fileNames := ["a.ts"],
    extensions := [], delegate := trivialHost, engine := engineEmitDiag }

/-- The same run with the emission skipped instead. -/
def mainInputsEmitSkip : MainInputs :=
  { mainInputsEmitDiag with engine := engineEmitSkip }

/-- An extension providing only a preProcess hook, used for the trace runs. -/
def preOnlyExtension : Extension :=
  { name := "pp", options := { genDir := none },
    preProcess := some fun _ _ => { content := "c", diagnostics := [] },
    postProcess := none, codegen := none, check := none }

/-- A run with one root input and one preProcess extension. -/
def mainInputsPre : MainInputs :=
  { mainInputsEmitDiag with
    extensions := [preOnlyExtension],
    engine := { engineEmitDiag with
      emit := fun _ => { diagnostics := [], emitSkipped := false } } }

/-- A diagnostic reported by the first witness extension. -/
def diagA : Diagnostic :=
  { category := DiagnosticCategory.Warning, messageText := "from A" }

/-- A diagnostic reported by the second witness extension. -/
def diagB : Diagnostic :=
  { category := DiagnosticCategory.Warning, messageText := "from B" }

/-- A preProcess extension returning fixed content and one diagnostic. -/
def preExtA : Extension :=
  { name := "A", options := { genDir := none },
    preProcess := some fun _ _ =>
      { content := "contentA", diagnostics := [some diagA] },
    postProcess := none, codegen := none, check := none }

/-- A second preProcess extension returning different content and one
diagnostic. -/
def preExtB : Extension :=
  { name := "B", options := { genDir := none },
    preProcess := some fun _ _ =>
      { content := "contentB", diagnostics := [some diagB] },
    postProcess := none, codegen := none, check := none }

/-! Helper lemmas. -/

/-- The source-side postProcess fold equals the spec-side sequential chain. -/
theorem postFold_eq_specPostChain (fileName : String) :
    ∀ (l : List Extension) (content : String),
    l.foldl (fun c e => applyPost e fileName c) content =
      specPostChain fileName l content := by
  intro l
  induction l with
  | nil => intro content; rfl
  | cons e rest ih =>
    intro content
    rw [List.foldl_cons, specPostChain, ih]

/-- Unfolding of the preProcess fold in getSourceFile: the final content is
the content of the last hook (the initial content when no hook ran), the
diagnostics of every hook are appended in order, and one event per hook is
recorded. -/
theorem preFold_eq (program : Option Program) (sourceFile : Option SourceFile) :
    ∀ (l : List Extension) (content : String) (diags : DiagList)
      (events : List Event),
    l.foldl (preStep program sourceFile) (content, diags, events) =
      ((l.map fun e => (applyPre e program sourceFile).content).getLastD content,
       diags ++ (l.map fun e => (applyPre e program sourceFile).diagnostics).flatten,
       events ++ l.map fun e => Event.preProcessCall e.name program.isSome) := by
  intro l
  induction l with
  | nil => intro content diags events; simp [List.getLastD]
  | cons e rest ih =>
    intro content diags events
    rw [List.foldl_cons]
    show rest.foldl (preStep program sourceFile)
        ((applyPre e program sourceFile).content,
         diags ++ (applyPre e program sourceFile).diagnostics,
         events ++ [Event.preProcessCall e.name program.isSome]) = _
    rw [ih]
    simp only [List.map_cons, List.getLastD_cons, List.flatten_cons,
      List.append_assoc, List.singleton_append]

/-- getSourceFile never changes the program slot of the host state. -/
theorem extGetSourceFile_program {ε ω τ γ : Type}
    (delegate : CompilerHost ε ω τ γ) (extensions : List Extension)
    (st : HostState) (fileName : String) (languageVersion : Nat)
    (onError : Option ε) :
    (extGetSourceFile delegate extensions st fileName languageVersion
      onError).2.1.program = st.program := by
  unfold extGetSourceFile
  split
  · rfl
  · rfl

/-- The trace of one getSourceFile call: no events for a declaration unit,
one preProcessCall per enabled extension otherwise, all recording whether the
program slot was assigned at call time. -/
theorem extGetSourceFile_events {ε ω τ γ : Type}
    (delegate : CompilerHost ε ω τ γ) (extensions : List Extension)
    (st : HostState) (fileName : String) (languageVersion : Nat)
    (onError : Option ε) :
    (extGetSourceFile delegate extensions st fileName languageVersion
      onError).2.2 =
      if isDefinitions fileName then [] else
        (extensions.filter fun e => e.preProcess.isSome).map
          fun e => Event.preProcessCall e.name st.program.isSome := by
  unfold extGetSourceFile
  split
  · rfl
  · simp only [preFold_eq, List.nil_append]

/-- The Program-construction fold preserves the program slot, and every event
it appends is a preProcessCall recording the (unchanged) assignment status. -/
theorem createFold_spec (delegate : CompilerHost Unit Unit Unit Unit)
    (extensions : List Extension) :
    ∀ (fileNames : List String) (files : List SourceFile) (st : HostState)
      (events : List Event),
    (fileNames.foldl (createStep delegate extensions)
        (files, st, events)).2.1.program = st.program ∧
    ∀ ev ∈ (fileNames.foldl (createStep delegate extensions)
        (files, st, events)).2.2,
      ev ∈ events ∨ ∃ n, ev = Event.preProcessCall n st.program.isSome := by
  intro fileNames
  induction fileNames with
  | nil =>
    intro files st events
    exact ⟨rfl, fun ev hev => Or.inl hev⟩
  | cons f rest ih =>
    intro files st events
    rw [List.foldl_cons]
    simp only [createStep]
    have hprog := extGetSourceFile_program delegate extensions st f 0 none
    obtain ⟨ih1, ih2⟩ :=
      ih (files ++ (extGetSourceFile delegate extensions st f 0 none).1.toList)
        (extGetSourceFile delegate extensions st f 0 none).2.1
        (events ++ (extGetSourceFile delegate extensions st f 0 none).2.2)
    constructor
    · rw [ih1, hprog]
    · intro ev hev
      rcases ih2 ev hev with hin | hpre
      · rcases List.mem_append.mp hin with h | h
        · exact Or.inl h
        · right
          rw [extGetSourceFile_events] at h
          by_cases hd : isDefinitions f = true
          · rw [if_pos hd] at h
            exact absurd h (List.not_mem_nil ev)
          · rw [if_neg hd] at h
            obtain ⟨e, _, he⟩ := List.mem_map.mp h
            exact ⟨e.name, he.symm⟩
      · rw [hprog] at hpre
        exact Or.inr hpre

/-- The produced unit of getSourceFile on a non-declaration file: a fresh
parse of the content of the last enabled preProcess hook (the raw read when
no hook is enabled). -/
theorem extGetSourceFile_file {ε ω τ γ : Type}
    (delegate : CompilerHost ε ω τ γ) (extensions : List Extension)
    (st : HostState) (fileName : String) (languageVersion : Nat)
    (onError : Option ε) (hfile : isDefinitions fileName = false) :
    (extGetSourceFile delegate extensions st fileName languageVersion
      onError).1 =
      some (createSourceFile fileName
        (((extensions.filter fun e => e.preProcess.isSome).map
          fun e => (applyPre e st.program
            (delegate.getSourceFile fileName languageVersion onError)).content).getLastD
          (delegate.readFile fileName))
        languageVersion true) := by
  simp only [extGetSourceFile, hfile, Bool.false_eq_true, if_false, preFold_eq]

/-- The accumulator of getSourceFile on a non-declaration file: the prior
diagnostics followed by those of every enabled preProcess hook, in order. -/
theorem extGetSourceFile_diags {ε ω τ γ : Type}
    (delegate : CompilerHost ε ω τ γ) (extensions : List Extension)
    (st : HostState) (fileName : String) (languageVersion : Nat)
    (onError : Option ε) (hfile : isDefinitions fileName = false) :
    (extGetSourceFile delegate extensions st fileName languageVersion
      onError).2.1.diagnostics =
      st.diagnostics ++
        ((extensions.filter fun e => e.preProcess.isSome).map
          fun e => (applyPre e st.program
            (delegate.getSourceFile fileName languageVersion onError)).diagnostics).flatten := by
  simp only [extGetSourceFile, hfile, Bool.false_eq_true, if_false, preFold_eq]

/-! Claim theorems. -/

/-- Claim C8 (confirmed): for every base host and every exposed operation of
the Delegating Host, invoking the operation on the Delegating Host produces a
result identical to invoking the same operation on the base host directly,
with no added state or side effects. -/
theorem delegatingHost_passthrough {ε ω τ γ : Type}
    (delegate : CompilerHost ε ω τ γ) :
    (∀ fileName languageVersion onError,
      (DelegatingHost delegate).getSourceFile fileName languageVersion onError =
        delegate.getSourceFile fileName languageVersion onError) ∧
    (∀ u, (DelegatingHost delegate).getCancellationToken u =
      delegate.getCancellationToken u) ∧
    (∀ options, (DelegatingHost delegate).getDefaultLibFileName options =
      delegate.getDefaultLibFileName options) ∧
    (∀ u, (DelegatingHost delegate).getDefaultLibLocation u =
      delegate.getDefaultLibLocation u) ∧
    (∀ fileName content writeByteOrderMark onError,
      (DelegatingHost delegate).writeFile fileName content writeByteOrderMark
          onError =
        delegate.writeFile fileName content writeByteOrderMark onError) ∧
    (∀ u, (DelegatingHost delegate).getCurrentDirectory u =
      delegate.getCurrentDirectory u) ∧
    (∀ fileName, (DelegatingHost delegate).getCanonicalFileName fileName =
      delegate.getCanonicalFileName fileName) ∧
    (∀ u, (DelegatingHost delegate).useCaseSensitiveFileNames u =
      delegate.useCaseSensitiveFileNames u) ∧
    (∀ u, (DelegatingHost delegate).getNewLine u = delegate.getNewLine u) ∧
    (∀ moduleNames containingFile,
      (DelegatingHost delegate).resolveModuleNames moduleNames containingFile =
        delegate.resolveModuleNames moduleNames containingFile) ∧
    (∀ fileName, (DelegatingHost delegate).fileExists fileName =
      delegate.fileExists fileName) ∧
    (∀ fileName, (DelegatingHost delegate).readFile fileName =
      delegate.readFile fileName) ∧
    (∀ s, (DelegatingHost delegate).trace s = delegate.trace s) ∧
    (∀ directoryName, (DelegatingHost delegate).directoryExists directoryName =
      delegate.directoryExists directoryName) :=
  ⟨fun _ _ _ => rfl, fun _ => rfl, fun _ => rfl, fun _ => rfl,
   fun _ _ _ _ => rfl, fun _ => rfl, fun _ => rfl, fun _ => rfl, fun _ => rfl,
   fun _ _ => rfl, fun _ => rfl, fun _ => rfl, fun _ => rfl, fun _ => rfl⟩

/-- Claim C9 (confirmed): the abort-check routine aborts exactly when the
diagnostic list is non-null, non-empty, and its first element is non-null; a
null or empty list, or a list whose first element is absent, never aborts,
whatever the later elements hold. -/
theorem checkAborts_first_element_decides (diagnostics : Option DiagList) :
    checkAborts diagnostics = true ↔
      ∃ l d rest, diagnostics = some l ∧ l = some d :: rest := by
  cases diagnostics with
  | none => simp [checkAborts]
  | some l =>
    cases l with
    | nil => simp [checkAborts]
    | cons a rest =>
      cases a with
      | none => simp [checkAborts]
      | some d =>
        constructor
        · intro _
          exact ⟨some d :: rest, d, rest, rfl, rfl⟩
        · intro _
          rfl

/-- Claim C5 counterexample: a pending list holding one non-fatal
(warning-severity) diagnostic makes the validation step abort, contradicting
the claim that only a fatal-severity diagnostic aborts. -/
theorem checkAborts_nonfatal_aborts :
    checkAborts (some [some warningDiagnostic]) = true ∧
    warningDiagnostic.category ≠ DiagnosticCategory.Error :=
  ⟨rfl, by decide⟩

/-- Claim C5 as amended: a diagnostic-validation step aborts exactly when the
pending list is non-empty with a non-null first element; severity is never
consulted (recategorizing every diagnostic never changes the decision). -/
theorem checkAborts_severity_blind (l : DiagList) :
    checkAborts (some l) = (l.headD none).isSome ∧
    ∀ f : Diagnostic → Diagnostic,
      checkAborts (some (l.map (Option.map f))) = checkAborts (some l) := by
  constructor
  · cases l with
    | nil => rfl
    | cons a rest => cases a <;> rfl
  · intro f
    cases l with
    | nil => rfl
    | cons a rest => cases a <;> rfl

/-- Claim C4 (confirmed): on every output-write call the content is threaded
left-to-right through the enabled postProcess hooks, each consuming the
previous output, and the base host write receives exactly the final content
with the unmodified path, byte-order-mark flag and error callback. -/
theorem extWriteCall_postProcess_spec {ε : Type} (extensions : List Extension)
    (fileName content : String) (writeByteOrderMark : Bool)
    (onError : Option ε) :
    extWriteCall extensions fileName content writeByteOrderMark onError =
      { fileName := fileName,
        content := specPostChain fileName
          (extensions.filter fun e => e.postProcess.isSome) content,
        writeByteOrderMark := writeByteOrderMark,
        onError := onError } := by
  unfold extWriteCall
  rw [postFold_eq_specPostChain]

/-- Claim C7 counterexample: with an empty extension list, source retrieval is
not identical to the base host.  A base host that reports the unit as missing
while its raw read returns text makes the Extension-Aware Host return a fresh
parse where the base host returns nothing. -/
theorem extHost_empty_not_identical :
    (extGetSourceFile missingFileHost [] hostState0 "a.ts" 0 none).1 =
      some (createSourceFile "a.ts" "x" 0 true) ∧
    missingFileHost.getSourceFile "a.ts" 0 none = none := by
  exact ⟨rfl, rfl⟩

/-- Claim C7 as amended: an Extension-Aware Host with an empty extension list
is identical to the base host for output writing and for declaration-file
source retrieval; for a non-declaration file it instead returns a fresh parse
of the raw file content (with parent-node wiring on), which need not equal the
base host result; the host state is unchanged either way. -/
theorem extHost_empty_amended {ε ω τ γ : Type}
    (delegate : CompilerHost ε ω τ γ) (st : HostState)
    (fileName content : String) (languageVersion : Nat)
    (writeByteOrderMark : Bool) (onError : Option ε) :
    extWriteFile delegate [] fileName content writeByteOrderMark onError =
      delegate.writeFile fileName content writeByteOrderMark onError ∧
    extWriteCall ([] : List Extension) fileName content writeByteOrderMark
        onError =
      { fileName := fileName, content := content,
        writeByteOrderMark := writeByteOrderMark, onError := onError } ∧
    (extGetSourceFile delegate [] st fileName languageVersion onError).1 =
      (if isDefinitions fileName then
        delegate.getSourceFile fileName languageVersion onError
       else
        some (createSourceFile fileName (delegate.readFile fileName)
          languageVersion true)) ∧
    (extGetSourceFile delegate [] st fileName languageVersion onError).2.1 =
      st := by
  refine ⟨rfl, rfl, ?_, ?_⟩
  · unfold extGetSourceFile
    split
    · rfl
    · rfl
  · unfold extGetSourceFile
    split
    · rfl
    · rfl

/-- Claim C10 counterexample: a codegen extension whose configuration bag has
the genDir key configured as the empty string does not write under the base
path: the empty string is falsy, so the engine output directory wins,
contradicting the claimed destination formula. -/
theorem codegenDest_empty_genDir_counterexample :
    codegenDest "/base" (some "") (some "out") "a.ts" = Except.ok "out/a.ts" ∧
    "out/a.ts" ≠ pathJoin (pathJoin "/base" "") "a.ts" := by
  exact ⟨rfl, by decide⟩

/-- Claim C10 as amended: with neither a truthy genDir nor an engine output
directory the codegen write callback fails on the undefined path.join
argument (run-fatal, nothing written); a genDir configured as a non-empty
string always yields basePath joined with genDir joined with the relative
path; an absent or empty-string genDir falls back to the engine output
directory. -/
theorem codegenDest_amended (basePath : String) (genDir outDir : Option String)
    (filename : String) :
    ((genDir = none ∨ genDir = some "") → outDir = none →
      codegenDest basePath genDir outDir filename =
        Except.error pathJoinUndefinedError) ∧
    (∀ g, genDir = some g → g ≠ "" →
      codegenDest basePath genDir outDir filename =
        Except.ok (pathJoin (pathJoin basePath g) filename)) ∧
    ((genDir = none ∨ genDir = some "") → ∀ o, outDir = some o →
      codegenDest basePath genDir outDir filename =
        Except.ok (pathJoin o filename)) := by
  refine ⟨?_, ?_, ?_⟩
  · rintro (rfl | rfl) rfl <;> rfl
  · rintro g rfl hg
    have hx : (g == "") = false := beq_eq_false_iff_ne.mpr hg
    simp [codegenDest, codegenOutDir, hx]
  · rintro (rfl | rfl) o rfl <;> rfl

/-- Witness for the amended claim C10 at a concrete configured genDir. -/
theorem codegenDest_amended_witness :
    codegenDest "/base" (some "gen") none "out.ts" =
      Except.ok "/base/gen/out.ts" := by
  have h := (codegenDest_amended "/base" (some "gen") none "out.ts").2.1 "gen"
    rfl (by decide)
  rw [h]
  rfl

/-- Claim C1 (code bug): at an input whose emission produces a fatal
diagnostic (and skips nothing), the run does not abort and reports success,
because the emission loop destructures the emit result into a local
diagnostics binding that shadows the outer accumulator, so the push appends
the emission diagnostics to themselves; the skip-tracking half of the claim
does hold (a skipped emission yields the failure result). -/
theorem main_emission_diagnostic_slips :
    (mainModel mainInputsEmitDiag).1 = Except.ok 0 ∧
    (engineEmitDiag.emit (createSourceFile "a.ts" "" 0 true)).diagnostics =
      [some emitDiagnostic] ∧
    (mainModel mainInputsEmitSkip).1 = Except.ok 1 := by
  exact ⟨rfl, rfl, rfl⟩

/-- Claim C2 (confirmed): on every source retrieval of a non-declaration unit
with at least one enabled preProcess extension, the diagnostics of every
enabled extension are appended to the host accumulator in order, while the
content finally re-parsed is exactly the content returned by the last enabled
extension (intermediate content is discarded). -/
theorem extGetSourceFile_preProcess_spec {ε ω τ γ : Type}
    (delegate : CompilerHost ε ω τ γ) (extensions : List Extension)
    (st : HostState) (fileName : String) (languageVersion : Nat)
    (onError : Option ε) (elast : Extension)
    (hfile : isDefinitions fileName = false)
    (hlast : (extensions.filter fun e => e.preProcess.isSome).getLast? =
      some elast) :
    (extGetSourceFile delegate extensions st fileName languageVersion
        onError).1 =
      some (createSourceFile fileName
        (applyPre elast st.program
          (delegate.getSourceFile fileName languageVersion onError)).content
        languageVersion true) ∧
    (extGetSourceFile delegate extensions st fileName languageVersion
        onError).2.1.diagnostics =
      st.diagnostics ++
        ((extensions.filter fun e => e.preProcess.isSome).map
          fun e => (applyPre e st.program
            (delegate.getSourceFile fileName languageVersion
              onError)).diagnostics).flatten := by
  constructor
  · rw [extGetSourceFile_file delegate extensions st fileName languageVersion
      onError hfile, List.getLastD_eq_getLast?, List.getLast?_map, hlast]
    rfl
  · exact extGetSourceFile_diags delegate extensions st fileName
      languageVersion onError hfile

/-- Witness for claim C2: two preProcess extensions, the second wins the
content, the diagnostics of both accumulate. -/
theorem extGetSourceFile_preProcess_spec_witness :
    (extGetSourceFile trivialHost [preExtA, preExtB] hostState0 "f.ts" 0
      none).1 =
      some (createSourceFile "f.ts" "contentB" 0 true) ∧
    (extGetSourceFile trivialHost [preExtA, preExtB] hostState0 "f.ts" 0
      none).2.1.diagnostics = [some diagA, some diagB] := by
  have h := extGetSourceFile_preProcess_spec trivialHost [preExtA, preExtB]
    hostState0 "f.ts" 0 (none : Option Unit) preExtB rfl rfl
  exact ⟨h.1, h.2⟩

/-- Characterization of the module-resolution fold: the result collects the
resolved modules of the request in order (dropping unresolved specifiers),
and each reverse-map entry holds the last specifier of the request resolving
to that path, falling back to the prior entry. -/
theorem resolveFold_spec (resolveModuleName : String → Option ResolvedModule) :
    ∀ (moduleNames : List String) (acc : List ResolvedModule)
      (m : String → Option String),
    (moduleNames.foldl (resolveStep resolveModuleName) (acc, m)).1 =
      acc ++ moduleNames.filterMap resolveModuleName ∧
    ∀ p, (moduleNames.foldl (resolveStep resolveModuleName) (acc, m)).2 p =
      lastResolvedOr (m p)
        ((moduleNames.filter fun n =>
          (resolveModuleName n).map ResolvedModule.resolvedFileName ==
            some p).getLast?) := by
  intro moduleNames
  induction moduleNames with
  | nil =>
    intro acc m
    exact ⟨by simp, fun p => by simp [lastResolvedOr]⟩
  | cons n rest ih =>
    intro acc m
    rw [List.foldl_cons]
    cases hr : resolveModuleName n with
    | none =>
      have hstep : resolveStep resolveModuleName (acc, m) n = (acc, m) := by
        simp [resolveStep, hr]
      rw [hstep]
      obtain ⟨ih1, ih2⟩ := ih acc m
      refine ⟨?_, fun p => ?_⟩
      · rw [ih1, List.filterMap_cons, hr]
      · rw [ih2 p]
        have hpred : ((resolveModuleName n).map ResolvedModule.resolvedFileName ==
            some p) = false := by
          simp [hr]
        simp only [List.filter_cons, hpred, Bool.false_eq_true, if_false]
    | some r =>
      have hstep : resolveStep resolveModuleName (acc, m) n =
          (acc ++ [r],
           fun k => if k = r.resolvedFileName then some n else m k) := by
        simp [resolveStep, hr]
      rw [hstep]
      obtain ⟨ih1, ih2⟩ :=
        ih (acc ++ [r]) (fun k => if k = r.resolvedFileName then some n else m k)
      refine ⟨?_, fun p => ?_⟩
      · rw [ih1, List.filterMap_cons, hr, List.append_assoc,
          List.singleton_append]
      · rw [ih2 p]
        by_cases hp : p = r.resolvedFileName
        · have hpred : ((resolveModuleName n).map
              ResolvedModule.resolvedFileName == some p) = true := by
            rw [hr, Option.map_some', beq_iff_eq]
            exact congrArg some hp.symm
          rw [if_pos hp]
          simp only [List.filter_cons, hpred, if_true]
          cases hfr : rest.filter fun x =>
              (resolveModuleName x).map ResolvedModule.resolvedFileName ==
                some p with
          | nil => simp [lastResolvedOr]
          | cons a as =>
            rw [List.getLast?_cons_cons, List.getLast?_cons]
            simp [lastResolvedOr]
        · have hpred : ((resolveModuleName n).map
              ResolvedModule.resolvedFileName == some p) = false := by
            rw [hr, Option.map_some', beq_eq_false_iff_ne]
            intro hcon
            exact hp (Option.some.inj hcon).symm
          rw [if_neg hp]
          simp only [List.filter_cons, hpred, Bool.false_eq_true, if_false]

/-- Claim C6 (confirmed): unresolvable specifiers are dropped entirely from
the resolution result (so it may be strictly shorter than the request), and
after processing, each reverse-map entry holds the most recently processed
specifier that resolved to that path (the prior entry when none did). -/
theorem resolveModuleNames_spec (resolveModuleName : String → Option ResolvedModule)
    (moduleNames : List String) (reverseMap : String → Option String) :
    (resolveModuleNamesModel resolveModuleName moduleNames reverseMap).1 =
      moduleNames.filterMap resolveModuleName ∧
    ∀ p, (resolveModuleNamesModel resolveModuleName moduleNames reverseMap).2 p =
      lastResolvedOr (reverseMap p)
        ((moduleNames.filter fun n =>
          (resolveModuleName n).map ResolvedModule.resolvedFileName ==
            some p).getLast?) := by
  obtain ⟨h1, h2⟩ := resolveFold_spec resolveModuleName moduleNames [] reverseMap
  constructor
  · rw [resolveModuleNamesModel, h1, List.nil_append]
  · intro p
    rw [resolveModuleNamesModel, h2 p]

/-- Claim C3 counterexample: in a run with one root input and one preProcess
extension, the trace shows a hook that reads the Program reference firing
strictly before the assignment event, and the recorded flag false shows the
reference was still unassigned when the hook received it. -/
theorem mainModel_hook_fires_before_assign :
    hookBeforeAssign (mainModel mainInputsPre).2 = true ∧
    (mainModel mainInputsPre).2 =
      [Event.preProcessCall "pp" false, Event.assignProgram] := by
  exact ⟨rfl, rfl⟩

/-- Claim C3 as amended: the orchestrator assigns the Program reference onto
the host exactly once — the assignment is the last trace event of every run
that reaches Program construction — but every preProcess hook of the run
fires earlier, during Program construction, and therefore reads the still
unassigned Program reference. -/
theorem mainModel_assignment_amended (inp : MainInputs)
    (h1 : checkAborts (some [inp.configError]) = false)
    (h2 : checkAborts (some inp.parsedErrors) = false) :
    (mainModel inp).2.getLast? = some Event.assignProgram ∧
    ∀ ev ∈ (mainModel inp).2.dropLast,
      ∃ n, ev = Event.preProcessCall n false := by
  have hmain : (mainModel inp).2 =
      (inp.fileNames.foldl (createStep inp.delegate inp.extensions)
        ([], { diagnostics := [], program := none,
               reverseMap := fun _ => none }, [])).2.2 ++
      [Event.assignProgram] := by
    unfold mainModel
    rw [h1, h2]
    simp only [Bool.false_eq_true, if_false]
    rfl
  rw [hmain]
  constructor
  · exact List.getLast?_concat _
  · rw [List.dropLast_concat]
    intro ev hev
    have hcp := (createFold_spec inp.delegate inp.extensions inp.fileNames []
      { diagnostics := [], program := none, reverseMap := fun _ => none }
      []).2 ev hev
    rcases hcp with hin | hpre
    · exact absurd hin (List.not_mem_nil ev)
    · exact hpre

/-- Witness for the amended claim C3 at a concrete run. -/
theorem mainModel_assignment_amended_witness :
    (mainModel mainInputsPre).2.getLast? = some Event.assignProgram :=
  (mainModel_assignment_amended mainInputsPre rfl rfl).1

end TscExt
